import Mathlib

/-!
# Verification of the barkr crossposting core

A shallow embedding of the barkr repository's core (src/barkr): the
message/media data model (`src/barkr/models/message.py`,
`src/barkr/models/media.py`), the endpoint contract
(`src/barkr/connections/base.py`) and the orchestrator's read/write cycles
(`src/barkr/main.py`), together with theorems settling the specification's
claims about them.

Conventions of the embedding:
- Python exceptions are modelled by the `PyError` type and `Except`;
  the `try/except` logic of the source is reproduced case by case.
- Python `set`s of strings are modelled as lists; only membership matters
  to the source's logic, and `setUpdate` reproduces `set.update`.
- Python dicts are modelled as association lists (`dictSet` / `dictGet?`),
  whose keys stay unique when updated through `dictSet`.
- The connectors (`_fetch` / `_post` of the concrete subclasses) are out of
  the core and enter as function parameters, exactly as the base class
  treats them.
-/

/-- Embeds `src/barkr/models/message_visibility.py`: the `MessageVisibility` enum. -/
inductive MessageVisibility where
  | PUBLIC
  | UNLISTED
  | PRIVATE
  | DIRECT
  deriving DecidableEq, Repr

/-- Embeds `src/barkr/models/message_type.py`: the `MessageType` enum. -/
inductive MessageType where
  | TEXT_ONLY
  | TEXT_MEDIA
  deriving DecidableEq, Repr

/-- Embeds `src/barkr/connections/base.py`: the `ConnectionMode` enum. -/
inductive ConnectionMode where
  | READ
  | WRITE
  deriving DecidableEq, Repr

/-- A Python exception, as far as the core's `try/except` logic
distinguishes them: `NotImplementedError` versus everything else
(`base.py` line 73 checks `isinstance(e, NotImplementedError)`). -/
inductive PyError where
  | notImplementedError (msg : String)
  | otherError (excName : String) (msg : String)
  deriving DecidableEq, Repr

/-- Whether the exception is a `NotImplementedError`. -/
def PyError.isNotImplementedError : PyError → Bool
  | PyError.notImplementedError _ => true
  | PyError.otherError _ _ => false

/-- ASCII whitespace, as recognised by Python's `str.strip()` /
`str.isspace()` (we restrict to the ASCII range, which is all the source
ever feeds it). -/
def pyIsSpace (ch : Char) : Bool :=
  ch = ' ' || ch = '\t' || ch = '\n' || ch = '\r' ||
    ch = Char.ofNat 11 || ch = Char.ofNat 12

/-- Truthiness of `s.strip()` in Python: the stripped string is non-empty
iff `s` holds at least one non-whitespace character. -/
def pyNonBlank (s : String) : Bool :=
  s.data.any (fun ch => !(pyIsSpace ch))

/-- Embeds `src/barkr/models/media.py`: `SUPPORTED_MIME_TYPES`. -/
def SUPPORTED_MIME_TYPES : List String :=
  ["image/jpeg", "image/png", "image/gif", "image/webp",
   "video/mp4", "video/quicktime"]

/-- Embeds `src/barkr/models/media.py`: the `Media` dataclass. The raw bytes are
a list of `UInt8`. -/
structure Media where
  mime_type : String
  content : List UInt8
  alt_text : String := ""
  deriving DecidableEq, Repr

/-- Embeds `Media.is_valid` (`media.py` lines 36-52): non-empty content, a
non-blank MIME string, and membership in the allow-list. -/
def Media.is_valid (m : Media) : Bool :=
  let has_content : Bool := decide (m.content.length > 0)
  let has_mime_type : Bool := pyNonBlank m.mime_type
  if !has_content || !has_mime_type then
    false
  else
    SUPPORTED_MIME_TYPES.contains m.mime_type

/-- Embeds `src/barkr/models/message.py`: the `Message` dataclass, with the same
defaults as the source. -/
structure Message where
  id : String
  message : String
  media : List Media := []
  language : Option String := none
  label : Option String := none
  visibility : MessageVisibility := MessageVisibility.PUBLIC
  deriving DecidableEq, Repr

/-- Embeds `Message.has_content` (`message.py` lines 90-121): private/direct
messages have no postable content; otherwise a non-blank body suffices,
and a media-capable endpoint also accepts at least one valid media item. -/
def Message.has_content (m : Message) (supported_message_type : MessageType) : Bool :=
  if m.visibility = MessageVisibility.PRIVATE ∨ m.visibility = MessageVisibility.DIRECT then
    false
  else
    let has_text : Bool := pyNonBlank m.message
    if supported_message_type = MessageType.TEXT_MEDIA then
      let valid_media := m.media.filter Media.is_valid
      has_text || decide (valid_media.length > 0)
    else
      has_text

/-- Insertion into a Python `set` modelled as a list: no-op when the
element is already present. -/
def setInsert (s : List String) (x : String) : List String :=
  if x ∈ s then s else s ++ [x]

/-- Python `set.update`: insert every element of `xs`. -/
def setUpdate (s : List String) (xs : List String) : List String :=
  xs.foldl setInsert s

/-- The mutable state of a `Connection` (`base.py` lines 37-58):
name, modes, the dedup set, and the declared message-type capability
(class attribute, default `TEXT_ONLY`). -/
structure ConnState where
  name : String
  modes : List ConnectionMode
  posted_message_ids : List String
  supported_message_type : MessageType := MessageType.TEXT_ONLY
  deriving DecidableEq, Repr

/-- Embeds `Connection.read` (`base.py` lines 60-91). The behaviour of the
subclass's `_fetch` for this call enters as the `fetch` argument.
Mirrors the source: no-op without READ mode; a `NotImplementedError`
from the fetch re-raises, any other exception yields `[]`; fetched
messages whose id is in `posted_message_ids` are skipped. The source
mutates no state in `read`, so the state is returned unchanged. -/
def Connection.read (c : ConnState) (fetch : Except PyError (List Message)) :
    Except PyError (List Message × ConnState) :=
  if ConnectionMode.READ ∉ c.modes then
    Except.ok ([], c)
  else
    match fetch with
    | Except.error e =>
        if e.isNotImplementedError then Except.error e else Except.ok ([], c)
    | Except.ok messages =>
        Except.ok (messages.filter (fun m => !(c.posted_message_ids.contains m.id)), c)

/-- Result of one `Connection.write` call: `called` is the argument the
connector's `_post` received (`none` when `_post` was not invoked), and
`result` is the updated state or the propagated exception. -/
structure WriteResult where
  called : Option (List Message)
  result : Except PyError ConnState

/-- The local variable `messages_with_content` of `Connection.write`
(`base.py` lines 104-108): the messages that pass `has_content` for this
connection's declared capability, in their original order. -/
def messagesWithContent (c : ConnState) (messages : List Message) : List Message :=
  messages.filter (fun m => m.has_content c.supported_message_type)

/-- Embeds `Connection.write` (`base.py` lines 93-124). The behaviour of the
subclass's `_post` enters as the `post` argument. Mirrors the source:
no-op without WRITE mode; messages failing `has_content` for the declared
capability are discarded; if none survive, return without calling the
connector; otherwise `_post` the survivors and merge the returned ids
into `posted_message_ids` (an exception from `_post` propagates, leaving
the state unchanged). -/
def Connection.write (c : ConnState) (messages : List Message)
    (post : List Message → Except PyError (List String)) : WriteResult :=
  if ConnectionMode.WRITE ∉ c.modes then
    ⟨none, Except.ok c⟩
  else if (messagesWithContent c messages).isEmpty then
    ⟨none, Except.ok c⟩
  else
    match post (messagesWithContent c messages) with
    | Except.error e => ⟨some (messagesWithContent c messages), Except.error e⟩
    | Except.ok posted_ids =>
        ⟨some (messagesWithContent c messages),
         Except.ok { c with
           posted_message_ids := setUpdate c.posted_message_ids posted_ids }⟩

/-- Assignment into a Python dict modelled as an association list:
overwrite the first matching key, append when absent. Keys stay unique
when the map is only built through this operation. -/
def dictSet {α β : Type} [DecidableEq α] : List (α × β) → α → β → List (α × β)
  | [], k, v => [(k, v)]
  | p :: rest, k, v =>
      if p.1 = k then (k, v) :: rest else p :: dictSet rest k v

/-- Python `dict.get`: the value of the first matching key, if any. -/
def dictGet? {α β : Type} [DecidableEq α] (m : List (α × β)) (k : α) : Option β :=
  (m.find? (fun p => decide (p.1 = k))).map (fun p => p.2)

/-- The class-wide `ThreadAwareConnection.message_id_map`
(`base.py` line 159): `(source_connection, source_id)` to a dict from
destination connection name to destination id. -/
abbrev MessageIdMap := List ((String × String) × List (String × String))

/-- Embeds `ThreadAwareConnection.store_message_mapping` (`base.py` lines
162-187): create the inner dict when the key is absent, then set this
connection's entry to `dest_id`. -/
def store_message_mapping (name : String) (map : MessageIdMap)
    (source_connection : String) (source_id : String) (dest_id : String) :
    MessageIdMap :=
  let key := (source_connection, source_id)
  let inner := (dictGet? map key).getD []
  dictSet map key (dictSet inner name dest_id)

/-- Embeds `ThreadAwareConnection.resolve_reply_to_id` (`base.py` lines
189-214): look up `(source_connection, source_id)`, defaulting to an
empty dict, then this connection's entry in it. -/
def resolve_reply_to_id (name : String) (map : MessageIdMap)
    (source_connection : String) (source_id : String) : Option String :=
  let key := (source_connection, source_id)
  let mapping := (dictGet? map key).getD []
  dictGet? mapping name

/-- Modelled from the spec: the write-path recording step of the
thread-aware endpoints is missing from src/ — no code under src/ calls
`store_message_mapping` (the thread-aware connector subclasses and the
provenance fields of `Message` exist only in the tests). Per spec §4.1,
after the connector's publish assigns one new id per published message
(order-preserving), the endpoint records
`(source_connection, source_id) → this endpoint's name → new_id` for
every successfully published message that carried provenance; a message
without provenance records nothing. -/
def threadAwareRecordMappings (name : String) (map : MessageIdMap)
    (provenances : List (Option (String × String))) (new_ids : List String) :
    MessageIdMap :=
  (provenances.zip new_ids).foldl
    (fun acc pn =>
      match pn.1 with
      | none => acc
      | some (sc, sid) => store_message_mapping name acc sc sid pn.2)
    map

/-- The orchestrator's `message_queues` (`main.py` line 65): one queue of
messages per connection name. -/
abbrev Queues := List (String × List Message)

/-- Embeds `self.message_queues[name]` — reading a queue by name (defaults to
`[]`; the orchestrator's constructor guarantees every connection's name
is present). -/
def lookupQueue (queues : Queues) (name : String) : List Message :=
  match queues.find? (fun nq => decide (nq.1 = name)) with
  | some nq => nq.2
  | none => []

/-- Embeds `self.message_queues[name] = q` — replacing a queue by name. -/
def setQueue (queues : Queues) (name : String) (q : List Message) : Queues :=
  queues.map (fun nq => if nq.1 = name then (name, q) else nq)

/-- The fan-out append of `Barkr.read` (`main.py` lines 83-92): add
`messages` to every queue whose name differs from the source
connection's. -/
def queuesAppend (queues : Queues) (srcName : String) (messages : List Message) :
    Queues :=
  queues.map (fun nq => if nq.1 ≠ srcName then (nq.1, nq.2 ++ messages) else nq)

/-- One connection as the orchestrator sees it during a cycle: its state
plus the behaviour of its connector's `_fetch` and `_post` for the cycle. -/
structure BConn where
  state : ConnState
  fetch : Except PyError (List Message)
  post : List Message → Except PyError (List String)

/-- Embeds `Barkr.read` (`main.py` lines 69-92): for each connection with READ
mode, call `Connection.read`; a raised `NotImplementedError` propagates;
returned messages are appended to every other connection's queue. -/
def barkrRead (queues : Queues) : List BConn → Except PyError Queues
  | [] => Except.ok queues
  | conn :: rest =>
      if ConnectionMode.READ ∈ conn.state.modes then
        match Connection.read conn.state conn.fetch with
        | Except.error e => Except.error e
        | Except.ok (messages, _) =>
            barkrRead
              (if messages.isEmpty then queues
               else queuesAppend queues conn.state.name messages)
              rest
      else
        barkrRead queues rest

/-- Embeds `max_amount` (`main.py` lines 100-102): `write_rate_limit or
len(queue)` — Python `or` falls through on `None` and on `0`. -/
def maxAmount (write_rate_limit : Option Nat) (queueLength : Nat) : Nat :=
  match write_rate_limit with
  | none => queueLength
  | some n => if n = 0 then queueLength else n

/-- Result of one `Barkr.write` cycle: the queues, the connection states
after the cycle, the arguments of each `connection.write` invocation in
order (name, messages), and the exception that aborted the cycle, if any
(in which case `queues`/`conns` hold the state at the moment the
exception escaped). -/
structure WriteCycleResult where
  queues : Queues
  conns : List BConn
  calls : List (String × List Message)
  err : Option PyError

/-- The local `max_amount` of `Barkr.write` for one connection
(`main.py` lines 100-102). -/
def connMaxAmount (write_rate_limit : Option Nat) (queues : Queues)
    (conn : BConn) : Nat :=
  maxAmount write_rate_limit (lookupQueue queues conn.state.name).length

/-- The local `messages` of `Barkr.write` (`main.py` line 107): the front
slice `queue[:max_amount]` of the connection's queue. -/
def frontSlice (write_rate_limit : Option Nat) (queues : Queues)
    (conn : BConn) : List Message :=
  (lookupQueue queues conn.state.name).take
    (connMaxAmount write_rate_limit queues conn)

/-- The queue trim of `Barkr.write` (`main.py` lines 126-129):
`queue[max_amount:]` replaces the connection's queue. -/
def trimQueue (write_rate_limit : Option Nat) (queues : Queues)
    (conn : BConn) : Queues :=
  setQueue queues conn.state.name
    ((lookupQueue queues conn.state.name).drop
      (connMaxAmount write_rate_limit queues conn))

/-- Prepend an untouched connection to the result of the remaining loop
iterations (the connection performed no write call). -/
def prependConn (conn : BConn) (r : WriteCycleResult) : WriteCycleResult :=
  ⟨r.queues, conn :: r.conns, r.calls, r.err⟩

/-- Prepend a connection whose `write` returned normally with new state
`c2`, recording the `connection.write(messages)` invocation. -/
def consWriteCall (conn : BConn) (c2 : ConnState) (messages : List Message)
    (r : WriteCycleResult) : WriteCycleResult :=
  ⟨r.queues, ⟨c2, conn.fetch, conn.post⟩ :: r.conns,
   (conn.state.name, messages) :: r.calls, r.err⟩

/-- Embeds `Barkr.write` (`main.py` lines 94-129): for each connection, compute
`max_amount`; when the connection has WRITE mode and the front slice is
non-empty, call `connection.write` on the slice (a raised exception
propagates, aborting the cycle before this connection's queue is
trimmed and before any later connection is processed); afterwards
unconditionally drop the slice from that connection's queue. -/
def barkrWrite (write_rate_limit : Option Nat) (queues : Queues) :
    List BConn → WriteCycleResult
  | [] => ⟨queues, [], [], none⟩
  | conn :: rest =>
      if ConnectionMode.WRITE ∈ conn.state.modes then
        if (frontSlice write_rate_limit queues conn).isEmpty then
          prependConn conn
            (barkrWrite write_rate_limit (trimQueue write_rate_limit queues conn) rest)
        else
          match (Connection.write conn.state
              (frontSlice write_rate_limit queues conn) conn.post).result with
          | Except.error e =>
              ⟨queues, conn :: rest,
               [(conn.state.name, frontSlice write_rate_limit queues conn)], some e⟩
          | Except.ok c2 =>
              consWriteCall conn c2 (frontSlice write_rate_limit queues conn)
                (barkrWrite write_rate_limit (trimQueue write_rate_limit queues conn) rest)
      else
        prependConn conn
          (barkrWrite write_rate_limit (trimQueue write_rate_limit queues conn) rest)

section BasicLemmas

theorem mem_setInsert {s : List String} {x y : String} :
    y ∈ setInsert s x ↔ y ∈ s ∨ y = x := by
  unfold setInsert
  split <;> rename_i hx
  · constructor
    · exact fun h => Or.inl h
    · rintro (h | rfl) <;> [exact h; exact hx]
  · simp

theorem mem_setUpdate {xs : List String} {s : List String} {y : String} :
    y ∈ setUpdate s xs ↔ y ∈ s ∨ y ∈ xs := by
  induction xs generalizing s with
  | nil => simp [setUpdate]
  | cons x rest ih =>
      show y ∈ setUpdate (setInsert s x) rest ↔ _
      rw [ih, mem_setInsert]
      constructor
      · rintro ((h | rfl) | h) <;> simp_all
      · rintro (h | h) <;> simp_all
        rcases h with h | h <;> simp_all

theorem mem_setUpdate_right {xs s : List String} {y : String} (h : y ∈ xs) :
    y ∈ setUpdate s xs :=
  mem_setUpdate.mpr (Or.inr h)

theorem filter_length_pos_iff {α : Type} {p : α → Bool} {l : List α} :
    0 < (l.filter p).length ↔ ∃ a ∈ l, p a = true := by
  induction l with
  | nil => simp
  | cons a rest ih =>
      by_cases ha : p a = true <;> simp [List.filter_cons, ha, ih]

theorem pyNonBlank_of_supported_mime {s : String}
    (h : s ∈ SUPPORTED_MIME_TYPES) : pyNonBlank s = true := by
  simp only [SUPPORTED_MIME_TYPES, List.mem_cons, List.not_mem_nil, or_false] at h
  rcases h with rfl | rfl | rfl | rfl | rfl | rfl <;> decide

theorem Media.is_valid_iff (med : Media) :
    med.is_valid = true ↔
      0 < med.content.length ∧ med.mime_type ∈ SUPPORTED_MIME_TYPES := by
  cases hlen : decide (med.content.length > 0) with
  | false =>
      have hl : ¬ (0 < med.content.length) := of_decide_eq_false hlen
      simp only [Media.is_valid, hlen]
      simp [hl]
  | true =>
      have hl : 0 < med.content.length := of_decide_eq_true hlen
      cases hmime : pyNonBlank med.mime_type with
      | false =>
          simp only [Media.is_valid, hlen, hmime]
          constructor
          · intro h; simp at h
          · rintro ⟨_, hmem⟩
            rw [pyNonBlank_of_supported_mime hmem] at hmime
            cases hmime
      | true =>
          simp only [Media.is_valid, hlen, hmime]
          simp [hl, List.elem_iff]

end BasicLemmas

/-- The claim's reference definition of `has_content` (for comparison
with the source's `Message.has_content`): visibility is neither private
nor direct, and either the body is non-blank, or the capability is
text-plus-media and at least one attached media item has non-empty bytes
and a MIME type in the supported allow-list. -/
def hasContentClaim (m : Message) (c : MessageType) : Prop :=
  (m.visibility ≠ MessageVisibility.PRIVATE ∧
   m.visibility ≠ MessageVisibility.DIRECT) ∧
  (pyNonBlank m.message = true ∨
    (c = MessageType.TEXT_MEDIA ∧
      ∃ med ∈ m.media,
        0 < med.content.length ∧ med.mime_type ∈ SUPPORTED_MIME_TYPES))

/-- C8. `has_content` reference definition: for every message and
declared capability, the source's `Message.has_content` agrees with the
claim's formula — visibility neither private nor direct, and a non-blank
body or (for the text-plus-media capability) at least one valid attached
media item. -/
theorem has_content_reference_definition (m : Message) (c : MessageType) :
    m.has_content c = true ↔ hasContentClaim m c := by
  have hmedia : decide (0 < (m.media.filter Media.is_valid).length) = true ↔
      ∃ med ∈ m.media,
        0 < med.content.length ∧ med.mime_type ∈ SUPPORTED_MIME_TYPES := by
    rw [decide_eq_true_eq, filter_length_pos_iff]
    constructor
    · rintro ⟨med, hmem, hval⟩
      exact ⟨med, hmem, (Media.is_valid_iff med).mp hval⟩
    · rintro ⟨med, hmem, hval⟩
      exact ⟨med, hmem, (Media.is_valid_iff med).mpr hval⟩
  unfold Message.has_content hasContentClaim
  by_cases hvis :
      m.visibility = MessageVisibility.PRIVATE ∨
        m.visibility = MessageVisibility.DIRECT
  · rw [if_pos hvis]
    constructor
    · intro h; cases h
    · rintro ⟨⟨h1, h2⟩, _⟩
      rcases hvis with h | h
      · exact absurd h h1
      · exact absurd h h2
  · rw [if_neg hvis]
    push_neg at hvis
    cases c with
    | TEXT_ONLY =>
        rw [if_neg (by intro h; cases h)]
        constructor
        · intro h
          exact ⟨hvis, Or.inl h⟩
        · rintro ⟨_, h | ⟨h, _⟩⟩
          · exact h
          · cases h
    | TEXT_MEDIA =>
        rw [if_pos rfl]
        constructor
        · intro h
          refine ⟨hvis, ?_⟩
          rcases Bool.or_eq_true _ _ |>.mp h with h | h
          · exact Or.inl h
          · exact Or.inr ⟨rfl, hmedia.mp h⟩
        · rintro ⟨_, h | ⟨_, hex⟩⟩
          · exact Bool.or_eq_true _ _ |>.mpr (Or.inl h)
          · exact Bool.or_eq_true _ _ |>.mpr (Or.inr (hmedia.mpr hex))

/-- C3. At-most-once via id suppression: when a connection's `write`
completes after its connector `_post` was called and assigned the ids
`ids`, every `x ∈ ids` is merged into `posted_message_ids`, and a
subsequent `read` whose fetch returns an item with id `x` does not
include that item in the returned list. -/
theorem at_most_once_id_suppression
    (c : ConnState) (msgs : List Message)
    (post : List Message → Except PyError (List String))
    (called : List Message) (c2 : ConnState) (ids : List String)
    (hcalled : (Connection.write c msgs post).called = some called)
    (hresult : (Connection.write c msgs post).result = Except.ok c2)
    (hpost : post called = Except.ok ids)
    (x : String) (hx : x ∈ ids)
    (fetched new : List Message) (c3 : ConnState)
    (hread : Connection.read c2 (Except.ok fetched) = Except.ok (new, c3))
    (m : Message) (hmid : m.id = x) :
    m ∉ new := by
  unfold Connection.write at hcalled hresult
  split_ifs at hcalled hresult with h1 h2
  cases hp : post (messagesWithContent c msgs) with
  | error e =>
      rw [hp] at hresult
      simp at hresult
  | ok ids0 =>
      rw [hp] at hcalled hresult
      simp only [Option.some.injEq] at hcalled
      simp only [Except.ok.injEq] at hresult
      have hx2 : x ∈ c2.posted_message_ids := by
        rw [← hresult]
        have hids : ids0 = ids := by
          rw [← hcalled] at hpost
          rw [hp] at hpost
          exact Except.ok.inj hpost
        subst hids
        exact mem_setUpdate_right hx
      unfold Connection.read at hread
      split_ifs at hread with h3
      · simp only [Except.ok.injEq, Prod.mk.injEq] at hread
        rw [← hread.1]
        intro hmem
        rw [List.mem_filter] at hmem
        have hfalse := hmem.2
        rw [hmid, Bool.not_eq_true'] at hfalse
        have htrue : c2.posted_message_ids.contains x = true :=
          List.elem_iff.mpr hx2
        rw [htrue] at hfalse
        cases hfalse
      · simp only [Except.ok.injEq, Prod.mk.injEq] at hread
        rw [← hread.1]
        simp

/-- C3 witness: a concrete write that posts id "p1", then a read whose
fetch returns a message with id "p1". -/
theorem at_most_once_id_suppression_witness :
    (⟨"p1", "hello", [], none, none, MessageVisibility.PUBLIC⟩ : Message) ∉
      ([] : List Message) :=
  at_most_once_id_suppression
    ⟨"E", [ConnectionMode.READ, ConnectionMode.WRITE], [], MessageType.TEXT_ONLY⟩
    [⟨"p0", "hello", [], none, none, MessageVisibility.PUBLIC⟩]
    (fun _ => Except.ok ["p1"])
    [⟨"p0", "hello", [], none, none, MessageVisibility.PUBLIC⟩]
    ⟨"E", [ConnectionMode.READ, ConnectionMode.WRITE], ["p1"], MessageType.TEXT_ONLY⟩
    ["p1"]
    rfl rfl rfl
    "p1" (by decide)
    [⟨"p1", "hello", [], none, none, MessageVisibility.PUBLIC⟩] []
    ⟨"E", [ConnectionMode.READ, ConnectionMode.WRITE], ["p1"], MessageType.TEXT_ONLY⟩
    rfl
    ⟨"p1", "hello", [], none, none, MessageVisibility.PUBLIC⟩ rfl

/-- A concrete connection state for read examples: READ mode, id "x"
already in the dedup set. -/
def cReadDemo : ConnState :=
  ⟨"E", [ConnectionMode.READ], ["x"], MessageType.TEXT_ONLY⟩

/-- A concrete fetched message whose id "x" is already in `cReadDemo`'s
dedup set. -/
def msgX : Message :=
  ⟨"x", "hello", [], none, none, MessageVisibility.PUBLIC⟩

/-- C6 counterexample: `Connection.read` observing a fetched message with
an id already in `posted_message_ids` drops it from the returned list,
but does NOT remove the id from the set — the call returns the state
unchanged and the observed id "x" is still present afterwards, refuting
the claimed one-shot removal. -/
theorem one_shot_suppression_counterexample :
    Connection.read cReadDemo (Except.ok [msgX]) = Except.ok ([], cReadDemo) ∧
    "x" ∈ cReadDemo.posted_message_ids :=
  ⟨rfl, by decide⟩

/-- C6 amended: when `Connection.read`'s fetch succeeds, every fetched
message whose id is already in `posted_message_ids` is dropped from the
returned list, and the set is left unchanged — the suppression is
persistent, not a one-shot window. -/
theorem suppression_drops_and_set_unchanged
    (c : ConnState) (fetched new : List Message) (c2 : ConnState)
    (h : Connection.read c (Except.ok fetched) = Except.ok (new, c2)) :
    (∀ m ∈ fetched, m.id ∈ c.posted_message_ids → m ∉ new) ∧ c2 = c := by
  unfold Connection.read at h
  split_ifs at h with h1
  · simp only [Except.ok.injEq, Prod.mk.injEq] at h
    refine ⟨?_, h.2.symm⟩
    intro m hm hid
    rw [← h.1]
    intro hmem
    rw [List.mem_filter] at hmem
    have hfalse := hmem.2
    rw [Bool.not_eq_true'] at hfalse
    have htrue : c.posted_message_ids.contains m.id = true :=
      List.elem_iff.mpr hid
    rw [htrue] at hfalse
    cases hfalse
  · simp only [Except.ok.injEq, Prod.mk.injEq] at h
    refine ⟨?_, h.2.symm⟩
    intro m _ _
    rw [← h.1]
    simp

/-- C6 amended witness at the concrete read of `msgX`. -/
theorem suppression_drops_and_set_unchanged_witness :
    (∀ m ∈ [msgX], m.id ∈ cReadDemo.posted_message_ids →
      m ∉ ([] : List Message)) ∧ cReadDemo = cReadDemo :=
  suppression_drops_and_set_unchanged cReadDemo [msgX] [] cReadDemo rfl

/-- C7. Fetch error taxonomy: for a connection with READ mode, an
exception from the fetch that is not a `NotImplementedError` is caught
and turned into an empty result, while a `NotImplementedError`
propagates to the caller. -/
theorem fetch_error_taxonomy
    (c : ConnState) (hR : ConnectionMode.READ ∈ c.modes) (e : PyError) :
    (e.isNotImplementedError = false →
      Connection.read c (Except.error e) = Except.ok ([], c)) ∧
    (e.isNotImplementedError = true →
      Connection.read c (Except.error e) = Except.error e) := by
  unfold Connection.read
  rw [if_neg (by simpa using hR)]
  constructor
  · intro h
    simp [h]
  · intro h
    simp [h]

/-- C7 witness: a concrete connection with READ mode, applied to both a
generic runtime error and a `NotImplementedError`. -/
theorem fetch_error_taxonomy_witness :
    ((PyError.otherError "ValueError" "boom").isNotImplementedError = false →
      Connection.read cReadDemo
        (Except.error (PyError.otherError "ValueError" "boom")) =
        Except.ok ([], cReadDemo)) ∧
    ((PyError.otherError "ValueError" "boom").isNotImplementedError = true →
      Connection.read cReadDemo
        (Except.error (PyError.otherError "ValueError" "boom")) =
        Except.error (PyError.otherError "ValueError" "boom")) :=
  fetch_error_taxonomy cReadDemo (by decide)
    (PyError.otherError "ValueError" "boom")

/-- C9. Empty-content filtering at write: for a connection with WRITE
mode, `Connection.write` invokes the connector's `_post` exactly on the
order-preserving subset of messages satisfying `has_content` for the
declared capability, and not at all when that subset is empty; hence a
text-only connection's `_post` only ever receives non-blank bodies,
while a text-plus-media connection's `_post` does receive a blank-body
message that has at least one valid media item (and postable
visibility). -/
theorem empty_content_filtering
    (c : ConnState) (hW : ConnectionMode.WRITE ∈ c.modes)
    (messages : List Message)
    (post : List Message → Except PyError (List String)) :
    ((Connection.write c messages post).called =
      if (messagesWithContent c messages).isEmpty then none
      else some (messagesWithContent c messages)) ∧
    (messagesWithContent c messages).Sublist messages ∧
    (∀ m ∈ messagesWithContent c messages,
      m.has_content c.supported_message_type = true) ∧
    (c.supported_message_type = MessageType.TEXT_ONLY →
      ∀ m ∈ messagesWithContent c messages, pyNonBlank m.message = true) ∧
    (c.supported_message_type = MessageType.TEXT_MEDIA →
      ∀ m ∈ messages, pyNonBlank m.message = false →
        m.media.any Media.is_valid = true →
        m.visibility ≠ MessageVisibility.PRIVATE →
        m.visibility ≠ MessageVisibility.DIRECT →
        (Connection.write c messages post).called =
          some (messagesWithContent c messages) ∧
        m ∈ messagesWithContent c messages) := by
  have hcalled : (Connection.write c messages post).called =
      if (messagesWithContent c messages).isEmpty then none
      else some (messagesWithContent c messages) := by
    unfold Connection.write
    rw [if_neg (by simpa using hW)]
    by_cases he : (messagesWithContent c messages).isEmpty
    · rw [if_pos he, if_pos he]
    · rw [if_neg he, if_neg he]
      cases hp : post (messagesWithContent c messages) <;> rfl
  refine ⟨hcalled, List.filter_sublist _, ?_, ?_, ?_⟩
  · intro m hm
    exact (List.mem_filter.mp hm).2
  · intro hty m hm
    have hc := (List.mem_filter.mp hm).2
    rw [hty] at hc
    simp only [Message.has_content] at hc
    split_ifs at hc with hv hmt
    · exact absurd hmt (by decide)
    · exact hc
  · intro htm m hm hblank hmedia hp hd
    have hc : m.has_content c.supported_message_type = true := by
      rw [htm]
      simp only [Message.has_content]
      rw [if_neg (by rintro (h | h) <;> [exact hp h; exact hd h])]
      rw [if_true]
      refine Bool.or_eq_true _ _ |>.mpr (Or.inr ?_)
      rw [decide_eq_true_eq, gt_iff_lt, filter_length_pos_iff]
      rcases List.any_eq_true.mp hmedia with ⟨med, hmem, hval⟩
      exact ⟨med, hmem, hval⟩
    have hmw : m ∈ messagesWithContent c messages :=
      List.mem_filter.mpr ⟨hm, hc⟩
    have hne : (messagesWithContent c messages).isEmpty = false := by
      rw [List.isEmpty_eq_false_iff_exists_mem]
      exact ⟨m, hmw⟩
    rw [hcalled, hne]
    exact ⟨rfl, hmw⟩

/-- A concrete text-only write connection for witnesses. -/
def cWriteDemo : ConnState :=
  ⟨"W", [ConnectionMode.WRITE], [], MessageType.TEXT_ONLY⟩

/-- C9 witness at a concrete text-only connection and message list. -/
theorem empty_content_filtering_witness :
    ((Connection.write cWriteDemo [msgX] (fun _ => Except.ok [])).called =
      if (messagesWithContent cWriteDemo [msgX]).isEmpty then none
      else some (messagesWithContent cWriteDemo [msgX])) ∧
    (messagesWithContent cWriteDemo [msgX]).Sublist [msgX] ∧
    (∀ m ∈ messagesWithContent cWriteDemo [msgX],
      m.has_content cWriteDemo.supported_message_type = true) ∧
    (cWriteDemo.supported_message_type = MessageType.TEXT_ONLY →
      ∀ m ∈ messagesWithContent cWriteDemo [msgX], pyNonBlank m.message = true) ∧
    (cWriteDemo.supported_message_type = MessageType.TEXT_MEDIA →
      ∀ m ∈ [msgX], pyNonBlank m.message = false →
        m.media.any Media.is_valid = true →
        m.visibility ≠ MessageVisibility.PRIVATE →
        m.visibility ≠ MessageVisibility.DIRECT →
        (Connection.write cWriteDemo [msgX] (fun _ => Except.ok [])).called =
          some (messagesWithContent cWriteDemo [msgX]) ∧
        m ∈ messagesWithContent cWriteDemo [msgX]) :=
  empty_content_filtering cWriteDemo (by decide) [msgX] (fun _ => Except.ok [])

theorem dictGet?_dictSet_self {α β : Type} [DecidableEq α]
    (m : List (α × β)) (k : α) (v : β) :
    dictGet? (dictSet m k v) k = some v := by
  induction m with
  | nil => simp [dictSet, dictGet?]
  | cons p rest ih =>
      by_cases hp : p.1 = k
      · simp [dictSet, hp, dictGet?]
      · simpa [dictSet, hp, dictGet?] using ih

theorem dictGet?_dictSet_ne {α β : Type} [DecidableEq α]
    (m : List (α × β)) (k k2 : α) (v : β) (h : k2 ≠ k) :
    dictGet? (dictSet m k v) k2 = dictGet? m k2 := by
  induction m with
  | nil => simp [dictSet, dictGet?, h, h.symm]
  | cons p rest ih =>
      obtain ⟨a, b⟩ := p
      by_cases hp : a = k
      · subst hp
        simp [dictSet, dictGet?, h, h.symm]
      · by_cases ha2 : a = k2
        · simp [dictSet, hp, dictGet?, ha2, h]
        · simpa [dictSet, hp, ha2, dictGet?] using ih

theorem resolve_after_store (name : String) (map : MessageIdMap)
    (sc sid dest : String) :
    resolve_reply_to_id name (store_message_mapping name map sc sid dest)
      sc sid = some dest := by
  simp only [store_message_mapping, resolve_reply_to_id]
  rw [dictGet?_dictSet_self]
  simp [dictGet?_dictSet_self]

/-- C4. Reply-thread resolution round trip: after endpoint `B`
successfully publishes a message carrying provenance `(sc, sid)` and is
assigned the local id `nid`, the (spec-modelled) write-path recording
puts `(sc, sid) → B → nid` into the shared table, so `B`'s resolve of
`(sc, sid)` returns `nid`, while resolving a key that was never recorded
returns nothing. -/
theorem reply_thread_resolution
    (B sc sid nid k : String) (map : MessageIdMap)
    (hk : k ≠ sid) (hnever : dictGet? map (sc, k) = none) :
    resolve_reply_to_id B (threadAwareRecordMappings B map [some (sc, sid)] [nid])
      sc sid = some nid ∧
    resolve_reply_to_id B (threadAwareRecordMappings B map [some (sc, sid)] [nid])
      sc k = none := by
  have hfold : threadAwareRecordMappings B map [some (sc, sid)] [nid] =
      store_message_mapping B map sc sid nid := rfl
  rw [hfold]
  refine ⟨resolve_after_store B map sc sid nid, ?_⟩
  simp only [store_message_mapping, resolve_reply_to_id]
  rw [dictGet?_dictSet_ne _ _ _ _ (by simp [hk])]
  rw [hnever]
  simp [dictGet?]

/-- C4 witness at the claim's concrete scenario: endpoint "B", provenance
("A", "a1"), assigned id "b7", unknown source id "unknown". -/
theorem reply_thread_resolution_witness :
    (resolve_reply_to_id "B"
      (threadAwareRecordMappings "B" [] [some ("A", "a1")] ["b7"])
      "A" "a1" = some "b7") ∧
    (resolve_reply_to_id "B"
      (threadAwareRecordMappings "B" [] [some ("A", "a1")] ["b7"])
      "A" "unknown" = none) :=
  reply_thread_resolution "B" "A" "a1" "b7" "unknown" [] (by decide) rfl

/-- The messages a connection's `read` returns in a cycle (empty when
the read raised — `Barkr.read` then aborts before using them). -/
def connReadMsgs (c : BConn) : List Message :=
  match Connection.read c.state c.fetch with
  | Except.ok p => p.1
  | Except.error _ => []

/-- The fan-out contribution a queue named `name` receives during one
`Barkr.read` cycle: the concatenation, in connection order, of the
messages read from every READ-mode connection whose name differs from
`name`. -/
def readJoin : List BConn → String → List Message
  | [], _ => []
  | c :: rest, name =>
      if ConnectionMode.READ ∈ c.state.modes ∧ c.state.name ≠ name then
        connReadMsgs c ++ readJoin rest name
      else
        readJoin rest name

theorem queuesAppend_nil (queues : Queues) (n : String) :
    queuesAppend queues n [] = queues := by
  unfold queuesAppend
  conv_rhs => rw [← List.map_id queues]
  apply List.map_congr_left
  intro nq _
  split <;> simp

theorem barkrRead_eq (conns : List BConn) (queues queues2 : Queues)
    (h : barkrRead queues conns = Except.ok queues2) :
    queues2 = queues.map (fun nq => (nq.1, nq.2 ++ readJoin conns nq.1)) := by
  induction conns generalizing queues with
  | nil =>
      unfold barkrRead at h
      have hq : queues = queues2 := Except.ok.inj h
      subst hq
      simp [readJoin]
  | cons c rest ih =>
      unfold barkrRead at h
      by_cases hr : ConnectionMode.READ ∈ c.state.modes
      · rw [if_pos hr] at h
        split at h
        · cases h
        · rename_i ms st hread
          have hcm : connReadMsgs c = ms := by
            unfold connReadMsgs
            rw [hread]
          have hq : (if ms.isEmpty then queues
              else queuesAppend queues c.state.name ms) =
              queuesAppend queues c.state.name ms := by
            split
            · rename_i hemp
              rw [List.isEmpty_iff.mp hemp, queuesAppend_nil]
            · rfl
          rw [hq] at h
          rw [ih _ h]
          unfold queuesAppend
          rw [List.map_map]
          apply List.map_congr_left
          intro nq _
          by_cases hn : nq.1 = c.state.name
          · simp [Function.comp, hn, readJoin, hr, hcm]
          · simp [Function.comp, hn, Ne.symm hn, readJoin, hr, hcm,
              List.append_assoc]
      · rw [if_neg hr] at h
        rw [ih _ h]
        apply List.map_congr_left
        intro nq _
        simp [readJoin, hr]

theorem mem_readJoin {conns : List BConn} {E : BConn} {n : String}
    {m : Message} (hE : E ∈ conns) (hR : ConnectionMode.READ ∈ E.state.modes)
    (hne : E.state.name ≠ n) (hm : m ∈ connReadMsgs E) :
    m ∈ readJoin conns n := by
  induction conns with
  | nil => cases hE
  | cons c rest ih =>
      rcases List.mem_cons.mp hE with rfl | hE2
      · unfold readJoin
        rw [if_pos ⟨hR, hne⟩]
        exact List.mem_append_left _ hm
      · unfold readJoin
        split
        · exact List.mem_append_right _ (ih hE2)
        · exact ih hE2

/-- C2. No-echo invariant of `Barkr.read`: when a read cycle completes,
every queue has become its old value followed by exactly the messages
read from the READ-mode connections whose name differs from the queue's
(so a connection's own messages are never appended to its own queue);
in particular every message a READ-mode connection returned is appended
to the queue of every other connection. -/
theorem read_fanout_excludes_source
    (queues queues2 : Queues) (conns : List BConn)
    (h : barkrRead queues conns = Except.ok queues2) :
    (queues2 = queues.map (fun nq => (nq.1, nq.2 ++ readJoin conns nq.1))) ∧
    (∀ E ∈ conns, ConnectionMode.READ ∈ E.state.modes →
      ∀ m ∈ connReadMsgs E, ∀ nq ∈ queues2, nq.1 ≠ E.state.name →
        m ∈ nq.2) := by
  have hchar := barkrRead_eq conns queues queues2 h
  refine ⟨hchar, ?_⟩
  intro E hE hR m hm nq hnq hne
  rw [hchar] at hnq
  rcases List.mem_map.mp hnq with ⟨nq0, _, rfl⟩
  exact List.mem_append_right _ (mem_readJoin hE hR (Ne.symm hne) hm)

/-- A concrete READ-mode connection named "A" whose fetch returns
`[msgX]`. -/
def bconnA : BConn :=
  ⟨⟨"A", [ConnectionMode.READ], [], MessageType.TEXT_ONLY⟩,
   Except.ok [msgX], fun _ => Except.ok []⟩

/-- A concrete WRITE-only connection named "B". -/
def bconnB : BConn :=
  ⟨⟨"B", [ConnectionMode.WRITE], [], MessageType.TEXT_ONLY⟩,
   Except.ok [], fun _ => Except.ok []⟩

/-- The initial queues for the two-connection examples. -/
def queuesAB : Queues := [("A", []), ("B", [])]

/-- C2 witness: one concrete read cycle over connections "A" (READ) and
"B" (WRITE), fanning `msgX` out into "B"'s queue only. -/
theorem read_fanout_excludes_source_witness :
    ([("A", ([] : List Message)), ("B", [msgX])] =
      queuesAB.map (fun nq => (nq.1, nq.2 ++ readJoin [bconnA, bconnB] nq.1))) ∧
    (∀ E ∈ [bconnA, bconnB], ConnectionMode.READ ∈ E.state.modes →
      ∀ m ∈ connReadMsgs E,
        ∀ nq ∈ [("A", ([] : List Message)), ("B", [msgX])],
          nq.1 ≠ E.state.name → m ∈ nq.2) :=
  read_fanout_excludes_source queuesAB [("A", []), ("B", [msgX])]
    [bconnA, bconnB] rfl

theorem lookupQueue_setQueue_ne (queues : Queues) (a n : String)
    (v : List Message) (h : n ≠ a) :
    lookupQueue (setQueue queues a v) n = lookupQueue queues n := by
  induction queues with
  | nil => rfl
  | cons p rest ih =>
      obtain ⟨b, q⟩ := p
      by_cases hb : b = a
      · subst hb
        simpa [setQueue, lookupQueue, h, h.symm] using ih
      · by_cases hbn : b = n
        · simp [setQueue, lookupQueue, hb, hbn, h]
        · simpa [setQueue, lookupQueue, hb, hbn] using ih

theorem lookupQueue_setQueue_self (queues : Queues) (n : String)
    (v : List Message) (hv : lookupQueue queues n = [] → v = []) :
    lookupQueue (setQueue queues n v) n = v := by
  induction queues with
  | nil => exact (hv rfl).symm
  | cons p rest ih =>
      obtain ⟨b, q⟩ := p
      by_cases hb : b = n
      · subst hb
        simp [setQueue, lookupQueue]
      · refine Eq.trans ?_ (ih ?_)
        · simp [setQueue, lookupQueue, hb]
        · intro hrest
          apply hv
          simpa [lookupQueue, hb] using hrest

theorem lookupQueue_trimQueue_self (write_rate_limit : Option Nat)
    (queues : Queues) (conn : BConn) :
    lookupQueue (trimQueue write_rate_limit queues conn) conn.state.name =
      (lookupQueue queues conn.state.name).drop
        (connMaxAmount write_rate_limit queues conn) := by
  unfold trimQueue
  apply lookupQueue_setQueue_self
  intro h
  rw [h]
  simp

theorem lookupQueue_trimQueue_ne (write_rate_limit : Option Nat)
    (queues : Queues) (conn : BConn) (n : String)
    (h : n ≠ conn.state.name) :
    lookupQueue (trimQueue write_rate_limit queues conn) n =
      lookupQueue queues n :=
  lookupQueue_setQueue_ne queues conn.state.name n _ h

theorem barkrWrite_lookup_untouched (write_rate_limit : Option Nat)
    (conns : List BConn) (queues : Queues) (n : String)
    (hn : ∀ c ∈ conns, c.state.name ≠ n) :
    lookupQueue (barkrWrite write_rate_limit queues conns).queues n =
      lookupQueue queues n := by
  induction conns generalizing queues with
  | nil => rfl
  | cons c rest ih =>
      have hcn : c.state.name ≠ n := hn c (List.mem_cons_self c rest)
      have hrest : ∀ c2 ∈ rest, c2.state.name ≠ n :=
        fun c2 h2 => hn c2 (List.mem_cons_of_mem c h2)
      have htrim : lookupQueue (trimQueue write_rate_limit queues c) n =
          lookupQueue queues n :=
        lookupQueue_trimQueue_ne write_rate_limit queues c n (Ne.symm hcn)
      unfold barkrWrite
      by_cases hw : ConnectionMode.WRITE ∈ c.state.modes
      · rw [if_pos hw]
        by_cases he : (frontSlice write_rate_limit queues c).isEmpty
        · rw [if_pos he]
          rw [show (prependConn c (barkrWrite write_rate_limit
            (trimQueue write_rate_limit queues c) rest)).queues =
            (barkrWrite write_rate_limit
              (trimQueue write_rate_limit queues c) rest).queues from rfl]
          rw [ih _ hrest, htrim]
        · rw [if_neg he]
          cases hres : (Connection.write c.state
              (frontSlice write_rate_limit queues c) c.post).result with
          | error e => rfl
          | ok c2 =>
              show lookupQueue (barkrWrite write_rate_limit
                (trimQueue write_rate_limit queues c) rest).queues n =
                lookupQueue queues n
              rw [ih _ hrest, htrim]
      · rw [if_neg hw]
        rw [show (prependConn c (barkrWrite write_rate_limit
          (trimQueue write_rate_limit queues c) rest)).queues =
          (barkrWrite write_rate_limit
            (trimQueue write_rate_limit queues c) rest).queues from rfl]
        rw [ih _ hrest, htrim]

theorem barkrWrite_trims (write_rate_limit : Option Nat) (conns : List BConn)
    (queues : Queues)
    (hnd : (conns.map (fun c => c.state.name)).Nodup)
    (herr : (barkrWrite write_rate_limit queues conns).err = none)
    (conn : BConn) (hc : conn ∈ conns) :
    lookupQueue (barkrWrite write_rate_limit queues conns).queues
        conn.state.name =
      (lookupQueue queues conn.state.name).drop
        (maxAmount write_rate_limit
          (lookupQueue queues conn.state.name).length) := by
  induction conns generalizing queues with
  | nil => cases hc
  | cons c rest ih =>
      rw [List.map_cons, List.nodup_cons] at hnd
      obtain ⟨hnotin, hnd2⟩ := hnd
      rcases List.mem_cons.mp hc with rfl | hc2
      · have hrest : ∀ c2 ∈ rest, c2.state.name ≠ conn.state.name := by
          intro c2 h2 heq
          exact hnotin (heq ▸ List.mem_map_of_mem _ h2)
        unfold barkrWrite at herr ⊢
        by_cases hw : ConnectionMode.WRITE ∈ conn.state.modes
        · rw [if_pos hw] at herr ⊢
          by_cases he : (frontSlice write_rate_limit queues conn).isEmpty
          · rw [if_pos he] at herr ⊢
            show lookupQueue (barkrWrite write_rate_limit
              (trimQueue write_rate_limit queues conn) rest).queues
                conn.state.name = _
            rw [barkrWrite_lookup_untouched write_rate_limit rest _ _ hrest]
            exact lookupQueue_trimQueue_self write_rate_limit queues conn
          · rw [if_neg he] at herr ⊢
            cases hres : (Connection.write conn.state
                (frontSlice write_rate_limit queues conn) conn.post).result with
            | error e =>
                rw [hres] at herr
                exact absurd herr (by simp)
            | ok c2 =>
                show lookupQueue (barkrWrite write_rate_limit
                  (trimQueue write_rate_limit queues conn) rest).queues
                    conn.state.name = _
                rw [barkrWrite_lookup_untouched write_rate_limit rest _ _ hrest]
                exact lookupQueue_trimQueue_self write_rate_limit queues conn
        · rw [if_neg hw] at herr ⊢
          show lookupQueue (barkrWrite write_rate_limit
            (trimQueue write_rate_limit queues conn) rest).queues
              conn.state.name = _
          rw [barkrWrite_lookup_untouched write_rate_limit rest _ _ hrest]
          exact lookupQueue_trimQueue_self write_rate_limit queues conn
      · have hcn : c.state.name ≠ conn.state.name := by
          intro heq
          exact hnotin (heq ▸ List.mem_map_of_mem _ hc2)
        have hlq : lookupQueue (trimQueue write_rate_limit queues c)
            conn.state.name = lookupQueue queues conn.state.name :=
          lookupQueue_trimQueue_ne write_rate_limit queues c _ (Ne.symm hcn)
        unfold barkrWrite at herr ⊢
        by_cases hw : ConnectionMode.WRITE ∈ c.state.modes
        · rw [if_pos hw] at herr ⊢
          by_cases he : (frontSlice write_rate_limit queues c).isEmpty
          · rw [if_pos he] at herr ⊢
            show lookupQueue (barkrWrite write_rate_limit
              (trimQueue write_rate_limit queues c) rest).queues
                conn.state.name = _
            rw [← hlq]
            exact ih _ hnd2 herr hc2
          · rw [if_neg he] at herr ⊢
            cases hres : (Connection.write c.state
                (frontSlice write_rate_limit queues c) c.post).result with
            | error e =>
                rw [hres] at herr
                exact absurd herr (by simp)
            | ok c2 =>
                rw [hres] at herr
                show lookupQueue (barkrWrite write_rate_limit
                  (trimQueue write_rate_limit queues c) rest).queues
                    conn.state.name = _
                rw [← hlq]
                exact ih _ hnd2 herr hc2
        · rw [if_neg hw] at herr ⊢
          show lookupQueue (barkrWrite write_rate_limit
            (trimQueue write_rate_limit queues c) rest).queues
              conn.state.name = _
          rw [← hlq]
          exact ih _ hnd2 herr hc2

theorem barkrWrite_calls_from_write_mode (write_rate_limit : Option Nat)
    (conns : List BConn) (queues : Queues) (p : String × List Message)
    (hp : p ∈ (barkrWrite write_rate_limit queues conns).calls) :
    ∃ c ∈ conns, c.state.name = p.1 ∧
      ConnectionMode.WRITE ∈ c.state.modes := by
  induction conns generalizing queues with
  | nil => cases hp
  | cons c rest ih =>
      unfold barkrWrite at hp
      by_cases hw : ConnectionMode.WRITE ∈ c.state.modes
      · rw [if_pos hw] at hp
        by_cases he : (frontSlice write_rate_limit queues c).isEmpty
        · rw [if_pos he] at hp
          replace hp : p ∈ (barkrWrite write_rate_limit
            (trimQueue write_rate_limit queues c) rest).calls := hp
          rcases ih _ hp with ⟨c2, h2, hn2, hw2⟩
          exact ⟨c2, List.mem_cons_of_mem c h2, hn2, hw2⟩
        · rw [if_neg he] at hp
          cases hres : (Connection.write c.state
              (frontSlice write_rate_limit queues c) c.post).result with
          | error e =>
              rw [hres] at hp
              have hpe : p = (c.state.name,
                  frontSlice write_rate_limit queues c) := by
                simpa using hp
              exact ⟨c, List.mem_cons_self c rest, by rw [hpe], hw⟩
          | ok c2 =>
              rw [hres] at hp
              have hp2 : p = (c.state.name,
                  frontSlice write_rate_limit queues c) ∨
                  p ∈ (barkrWrite write_rate_limit
                    (trimQueue write_rate_limit queues c) rest).calls := by
                simpa [consWriteCall] using hp
              rcases hp2 with rfl | hp3
              · exact ⟨c, List.mem_cons_self c rest, rfl, hw⟩
              · rcases ih _ hp3 with ⟨c3, h3, hn3, hw3⟩
                exact ⟨c3, List.mem_cons_of_mem c h3, hn3, hw3⟩
      · rw [if_neg hw] at hp
        replace hp : p ∈ (barkrWrite write_rate_limit
          (trimQueue write_rate_limit queues c) rest).calls := hp
        rcases ih _ hp with ⟨c2, h2, hn2, hw2⟩
        exact ⟨c2, List.mem_cons_of_mem c h2, hn2, hw2⟩

/-- A concrete WRITE connection named "C" whose connector's publish
raises a runtime error. -/
def bconnRaise : BConn :=
  ⟨⟨"C", [ConnectionMode.WRITE], [], MessageType.TEXT_ONLY⟩,
   Except.ok [],
   fun _ => Except.error (PyError.otherError "RuntimeError" "boom")⟩

/-- The initial queue for the raising-write example: one pending message. -/
def queuesC : Queues := [("C", [msgX])]

/-- C5 counterexample: a connector's publish that raises makes the
exception escape `Barkr.write` before the queue trim — the popped slice
(here the whole queue, no rate limit set) is NOT removed, refuting the
claim that it is dropped "including when the write raises". -/
theorem write_raise_keeps_queue_counterexample :
    (barkrWrite none queuesC [bconnRaise]).queues = queuesC ∧
    (barkrWrite none queuesC [bconnRaise]).err =
      some (PyError.otherError "RuntimeError" "boom") ∧
    lookupQueue (barkrWrite none queuesC [bconnRaise]).queues "C" ≠
      (lookupQueue queuesC "C").drop
        (maxAmount none (lookupQueue queuesC "C").length) :=
  ⟨rfl, rfl, by decide⟩

/-- C5 amended: when a `Barkr.write` cycle completes without a raised
exception (every performed connection write returned, however partially
its connector succeeded — fewer or no ids), the first `max_amount`
messages of every connection's queue are removed by the end of the call
and never automatically re-delivered; a raised exception instead aborts
the cycle before the raising connection's trim. -/
theorem write_drop_unconditional_on_completion
    (write_rate_limit : Option Nat) (queues : Queues) (conns : List BConn)
    (hnd : (conns.map (fun c => c.state.name)).Nodup)
    (herr : (barkrWrite write_rate_limit queues conns).err = none)
    (conn : BConn) (hc : conn ∈ conns) :
    lookupQueue (barkrWrite write_rate_limit queues conns).queues
        conn.state.name =
      (lookupQueue queues conn.state.name).drop
        (maxAmount write_rate_limit
          (lookupQueue queues conn.state.name).length) :=
  barkrWrite_trims write_rate_limit conns queues hnd herr conn hc

/-- C5 amended witness: a completing cycle over the WRITE connection "B"
drains its whole queue. -/
theorem write_drop_unconditional_on_completion_witness :
    lookupQueue (barkrWrite none [("B", [msgX])] [bconnB]).queues
        bconnB.state.name =
      (lookupQueue [("B", [msgX])] bconnB.state.name).drop
        (maxAmount none
          (lookupQueue [("B", [msgX])] bconnB.state.name).length) :=
  write_drop_unconditional_on_completion none [("B", [msgX])] [bconnB]
    (by simp) rfl bconnB (List.mem_cons_self bconnB [])

/-- C10. `Barkr.write` trims the front of every connection's queue,
including connections without WRITE mode: when the cycle completes, such
a connection's queue also loses its first `max_amount` messages
(`write_rate_limit`, or the whole queue when none is set), while no
write call is ever recorded under that connection's name — the messages
are silently discarded without being delivered. -/
theorem write_trims_readonly_queues
    (write_rate_limit : Option Nat) (queues : Queues) (conns : List BConn)
    (hnd : (conns.map (fun c => c.state.name)).Nodup)
    (herr : (barkrWrite write_rate_limit queues conns).err = none)
    (conn : BConn) (hc : conn ∈ conns)
    (hnw : ConnectionMode.WRITE ∉ conn.state.modes) :
    (lookupQueue (barkrWrite write_rate_limit queues conns).queues
        conn.state.name =
      (lookupQueue queues conn.state.name).drop
        (maxAmount write_rate_limit
          (lookupQueue queues conn.state.name).length)) ∧
    ∀ ms, (conn.state.name, ms) ∉
      (barkrWrite write_rate_limit queues conns).calls := by
  refine ⟨barkrWrite_trims write_rate_limit conns queues hnd herr conn hc, ?_⟩
  intro ms hmem
  rcases barkrWrite_calls_from_write_mode write_rate_limit conns queues _ hmem
    with ⟨c2, h2, hn2, hw2⟩
  have hceq : c2 = conn := List.inj_on_of_nodup_map hnd h2 hc hn2
  rw [hceq] at hw2
  exact hnw hw2

/-- C10 witness: a completing cycle over the READ-only connection "A"
with one queued message discards it without any write call. -/
theorem write_trims_readonly_queues_witness :
    (lookupQueue (barkrWrite none [("A", [msgX])] [bconnA]).queues
        bconnA.state.name =
      (lookupQueue [("A", [msgX])] bconnA.state.name).drop
        (maxAmount none
          (lookupQueue [("A", [msgX])] bconnA.state.name).length)) ∧
    ∀ ms, (bconnA.state.name, ms) ∉
      (barkrWrite none [("A", [msgX])] [bconnA]).calls :=
  write_trims_readonly_queues none [("A", [msgX])] [bconnA]
    (by simp) rfl bconnA (List.mem_cons_self bconnA []) (by decide)

theorem Connection.write_ok_preserves (c : ConnState) (ms : List Message)
    (post : List Message → Except PyError (List String))
    (hp : ∀ l, ∃ ids, post l = Except.ok ids) :
    ∃ c2, (Connection.write c ms post).result = Except.ok c2 ∧
      c2.name = c.name ∧ c2.modes = c.modes ∧
      c2.supported_message_type = c.supported_message_type := by
  unfold Connection.write
  by_cases h1 : ConnectionMode.WRITE ∉ c.modes
  · rw [if_pos h1]
    exact ⟨c, rfl, rfl, rfl, rfl⟩
  · rw [if_neg h1]
    by_cases h2 : (messagesWithContent c ms).isEmpty
    · rw [if_pos h2]
      exact ⟨c, rfl, rfl, rfl, rfl⟩
    · rw [if_neg h2]
      rcases hp (messagesWithContent c ms) with ⟨ids, hids⟩
      rw [hids]
      exact ⟨_, rfl, rfl, rfl, rfl⟩

theorem lookupQueue_cons_self (n : String) (q : List Message) (t : Queues) :
    lookupQueue ((n, q) :: t) n = q := by
  simp [lookupQueue]

theorem barkrWrite_single_step (conn : BConn) (q : List Message)
    (hw : ConnectionMode.WRITE ∈ conn.state.modes) (hq : q ≠ [])
    (hp : ∀ l, ∃ ids, conn.post l = Except.ok ids) :
    ∃ c2 : ConnState,
      barkrWrite (some 1) [(conn.state.name, q)] [conn] =
        ⟨[(conn.state.name, q.drop 1)], [⟨c2, conn.fetch, conn.post⟩],
         [(conn.state.name, q.take 1)], none⟩ ∧
      c2.name = conn.state.name ∧ c2.modes = conn.state.modes ∧
      c2.supported_message_type = conn.state.supported_message_type := by
  have hq1 : lookupQueue [(conn.state.name, q)] conn.state.name = q :=
    lookupQueue_cons_self _ _ _
  have hmax : connMaxAmount (some 1) [(conn.state.name, q)] conn = 1 := by
    unfold connMaxAmount maxAmount
    rw [hq1]
    rfl
  have hfront : frontSlice (some 1) [(conn.state.name, q)] conn = q.take 1 := by
    unfold frontSlice
    rw [hq1, hmax]
  have htrim : trimQueue (some 1) [(conn.state.name, q)] conn =
      [(conn.state.name, q.drop 1)] := by
    unfold trimQueue setQueue
    rw [hq1, hmax]
    simp
  have hne : ¬((q.take 1).isEmpty = true) := by
    cases q with
    | nil => exact absurd rfl hq
    | cons a t => intro h; cases h
  obtain ⟨c2, hres, hn, hm, hs⟩ :=
    Connection.write_ok_preserves conn.state (q.take 1) conn.post hp
  refine ⟨c2, ?_, hn, hm, hs⟩
  unfold barkrWrite
  rw [if_pos hw, hfront, if_neg hne, hres, htrim]
  rfl

/-- C1. FIFO drain under write rate limit 1: for a WRITE-mode connection
whose queue holds `[m1, m2, m3]` and whose connector's publish returns
normally, three successive `Barkr.write` cycles pass exactly `[m1]`,
then `[m2]`, then `[m3]` to the connection's `write` (the `calls`
field), and after each cycle the remaining queue is the untouched
suffix `[m2, m3]`, then `[m3]`, then `[]`; each successive cycle runs on
the previous cycle's resulting queues and connection states. -/
theorem fifo_drain_rate_limit_one
    (conn : BConn) (m1 m2 m3 : Message)
    (hw : ConnectionMode.WRITE ∈ conn.state.modes)
    (hp : ∀ l, ∃ ids, conn.post l = Except.ok ids) :
    ∃ (c2 c3 c4 : ConnState),
      barkrWrite (some 1) [(conn.state.name, [m1, m2, m3])] [conn] =
        ⟨[(conn.state.name, [m2, m3])], [⟨c2, conn.fetch, conn.post⟩],
         [(conn.state.name, [m1])], none⟩ ∧
      barkrWrite (some 1) [(conn.state.name, [m2, m3])]
          [⟨c2, conn.fetch, conn.post⟩] =
        ⟨[(conn.state.name, [m3])], [⟨c3, conn.fetch, conn.post⟩],
         [(conn.state.name, [m2])], none⟩ ∧
      barkrWrite (some 1) [(conn.state.name, [m3])]
          [⟨c3, conn.fetch, conn.post⟩] =
        ⟨[(conn.state.name, [])], [⟨c4, conn.fetch, conn.post⟩],
         [(conn.state.name, [m3])], none⟩ := by
  obtain ⟨c2, heq1, hn1, hm1, _⟩ :=
    barkrWrite_single_step conn [m1, m2, m3] hw (by simp) hp
  have hw2 : ConnectionMode.WRITE ∈
      (⟨c2, conn.fetch, conn.post⟩ : BConn).state.modes := by
    show ConnectionMode.WRITE ∈ c2.modes
    rw [hm1]
    exact hw
  obtain ⟨c3, heq2, hn2, hm2, _⟩ :=
    barkrWrite_single_step ⟨c2, conn.fetch, conn.post⟩ [m2, m3] hw2
      (by simp) hp
  have hname2 : (⟨c2, conn.fetch, conn.post⟩ : BConn).state.name =
      conn.state.name := hn1
  rw [hname2] at heq2
  have hw3 : ConnectionMode.WRITE ∈
      (⟨c3, conn.fetch, conn.post⟩ : BConn).state.modes := by
    show ConnectionMode.WRITE ∈ c3.modes
    rw [hm2]
    show ConnectionMode.WRITE ∈ c2.modes
    rw [hm1]
    exact hw
  obtain ⟨c4, heq3, _, _, _⟩ :=
    barkrWrite_single_step ⟨c3, conn.fetch, conn.post⟩ [m3] hw3
      (by simp) hp
  have hname3 : (⟨c3, conn.fetch, conn.post⟩ : BConn).state.name =
      conn.state.name := by
    show c3.name = conn.state.name
    rw [hn2]
    exact hn1
  rw [hname3] at heq3
  exact ⟨c2, c3, c4, heq1, heq2, heq3⟩

/-- Concrete messages for the FIFO witness. -/
def msg1 : Message := ⟨"1", "one", [], none, none, MessageVisibility.PUBLIC⟩

/-- Second concrete message for the FIFO witness. -/
def msg2 : Message := ⟨"2", "two", [], none, none, MessageVisibility.PUBLIC⟩

/-- Third concrete message for the FIFO witness. -/
def msg3 : Message := ⟨"3", "three", [], none, none, MessageVisibility.PUBLIC⟩

/-- C1 witness: the three-cycle drain at the concrete WRITE connection
"B" and messages `msg1, msg2, msg3`. -/
theorem fifo_drain_rate_limit_one_witness :
    ∃ (c2 c3 c4 : ConnState),
      barkrWrite (some 1) [(bconnB.state.name, [msg1, msg2, msg3])] [bconnB] =
        ⟨[(bconnB.state.name, [msg2, msg3])], [⟨c2, bconnB.fetch, bconnB.post⟩],
         [(bconnB.state.name, [msg1])], none⟩ ∧
      barkrWrite (some 1) [(bconnB.state.name, [msg2, msg3])]
          [⟨c2, bconnB.fetch, bconnB.post⟩] =
        ⟨[(bconnB.state.name, [msg3])], [⟨c3, bconnB.fetch, bconnB.post⟩],
         [(bconnB.state.name, [msg2])], none⟩ ∧
      barkrWrite (some 1) [(bconnB.state.name, [msg3])]
          [⟨c3, bconnB.fetch, bconnB.post⟩] =
        ⟨[(bconnB.state.name, [])], [⟨c4, bconnB.fetch, bconnB.post⟩],
         [(bconnB.state.name, [msg3])], none⟩ :=
  fifo_drain_rate_limit_one bconnB msg1 msg2 msg3 (by decide)
    (fun _ => ⟨[], rfl⟩)
